import Mathlib

/-
Verification of the Cytomine project migrator (exporter.py / importer.py)
against its natural-language specification.

The Python code is shallowly embedded: the implicit `Importer.id_mapping`
dict becomes an association list with last-write-wins lookup, stateful loops
become fuel-indexed recursive functions, and calls that can raise Python
exceptions (KeyError, TypeError, AttributeError) return `Except`/`Option`
values whose error case models the raised exception.
-/

namespace CytomineMigrator

/-- Python-dict model of `Importer.id_mapping` (importer.py line 119).
An association list where the most recent assignment for a key shadows
older entries, matching the overwrite semantics of `d[k] = v`.
Keys are bare origin identifiers, exactly as in the source, which never
qualifies them with an entity type. -/
abbrev IdMap := List (Nat × Nat)

/-- The empty dict `{}` that `Importer.__init__` starts from. -/
def dictEmpty : IdMap := []

/-- Python `d[k] = v`: a plain assignment, total, shadowing any older
binding of `k`. -/
def dictPut (m : IdMap) (k v : Nat) : IdMap := (k, v) :: m

/-- Python `d[k]`: `none` models a raised `KeyError`. -/
def dictGet : IdMap → Nat → Option Nat
  | [], _ => none
  | (k', v) :: rest, k => if k' = k then some v else dictGet rest k

/-- Python `k in d.keys()`. -/
def dictMem (m : IdMap) (k : Nat) : Bool := (dictGet m k).isSome

/-- Python `d[k]` in a position where the KeyError would propagate and
abort the run. -/
def keyGet (m : IdMap) (k : Nat) : Except String Nat :=
  match dictGet m k with
  | some v => Except.ok v
  | none => Except.error ("KeyError")

/-- Python `find_first` (importer.py lines 82-84): first element of a
list, or `None`. -/
def find_first {α : Type} (l : List α) : Option α := l.head?

/-! ## Convergence poller (importer.py lines 358-369)

The `while` loop of `import_images` that waits for asynchronously
deployed image instances.  One observable step is either a fetch of the
project's image-instance collection (a query) or a `time.sleep(5)`. -/

/-- One observable step of the image-convergence loop. -/
inductive PEvent (α : Type) where
  | query (observed : List α)
  | sleep
deriving DecidableEq

/-- Whether a poll event is a fetch of the image-instance collection. -/
def isQuery {α : Type} : PEvent α → Bool
  | .query _ => true
  | .sleep => false

/-- Outcome of the polling loop: the ordered event trace and the final
value of the `new_images` variable (`none` models Python `None`). -/
structure PollResult (α : Type) where
  trace : List (PEvent α)
  result : Option (List α)
deriving DecidableEq

/-- The loop body of importer.py lines 359-369.  `E` is
`len(remote_images)`, `obs i` is the collection the `i`-th fetch would
observe, `n` is `n_new_images` (an `int`, initially `-1`), `cur` is
`new_images`, `count` is the loop counter.  The guard is
`n != E and count < 5*E`; the second conjunct is represented by the
`fuel` argument, kept in lockstep with `count` via `fuel = 5*E - count`,
so `fuel = 0` exactly when `count < 5*E` fails. -/
def pollLoop (α : Type) (E : Nat) (obs : Nat → List α) :
    Nat → Int → Option (List α) → Nat → PollResult α
  | 0, _, cur, _ => ⟨[], cur⟩
  | fuel + 1, n, cur, count =>
    if n = (E : Int) then ⟨[], cur⟩
    else
      let fetched := obs count
      let rest := pollLoop α E obs fuel (fetched.length : Int) (some fetched) (count + 1)
      ⟨PEvent.query fetched :: ((if 0 < count then [PEvent.sleep] else []) ++ rest.trace),
        rest.result⟩

/-- The polling phase of `import_images`, entered with
`n_new_images = -1`, `new_images = None`, `count = 0`. -/
def importImagesPoll (α : Type) (E : Nat) (obs : Nat → List α) : PollResult α :=
  pollLoop α E obs (5 * E) (-1) none 0

/-! ## Image-instance fix-up (importer.py lines 295-307 and 372-394) -/

/-- The fields of a snapshot image instance used by the fix-up loop. -/
structure RemoteImage where
  id : Nat
  baseImage : Nat
  originalFilename : String
deriving DecidableEq

/-- An image instance observed on the target after deployment. -/
structure NewImage where
  id : Nat
  baseImage : Nat
  originalFilename : String
deriving DecidableEq

/-- The `bytes(name, "utf-8").decode("ascii", "ignore")` filename fix
(importer.py lines 301-303): drop every non-ASCII character. -/
def asciiFilter (s : String) : String := String.mk (s.data.filter (fun c => c.toNat < 128))

/-- `remote_images_dict`: a Python dict from original filename to the
list of snapshot images carrying it. -/
abbrev FilesDict := List (String × List RemoteImage)

/-- Appending one snapshot image under its (ASCII-filtered) filename,
as importer.py lines 304-307 do. -/
def filesDictAdd (d : FilesDict) (ri : RemoteImage) : FilesDict :=
  let key := asciiFilter ri.originalFilename
  match d.find? (fun p => p.1 = key) with
  | none => d ++ [(key, [ri])]
  | some _ => d.map (fun p => if p.1 = key then (p.1, p.2 ++ [ri]) else p)

/-- Building `remote_images_dict` over the whole snapshot collection. -/
def buildRemoteImagesDict (ris : List RemoteImage) : FilesDict :=
  ris.foldl filesDictAdd []

/-- Python `d[k].pop()`: take the LAST element of the list stored under
`k`; `KeyError` if the key is absent, `IndexError` if the list is empty. -/
def filesDictPop (d : FilesDict) (k : String) :
    Except String (RemoteImage × FilesDict) :=
  match d.find? (fun p => p.1 = k) with
  | none => Except.error ("KeyError")
  | some p =>
    match p.2.getLast? with
    | none => Except.error ("IndexError")
    | some ri =>
      Except.ok (ri, d.map (fun q => if q.1 = k then (q.1, q.2.dropLast) else q))

/-- The body of the fix-up loop (importer.py lines 373-394) restricted
to its effect on `remote_images_dict` and `id_mapping`: pop the snapshot
image matching each observed filename and record the
origin-to-target mapping for the image instance and its abstract image.
The per-field metadata patching of `new_image` mutates only the freshly
fetched target object and is omitted. -/
def fixImagesLoop (m : IdMap) (d : FilesDict) : List NewImage → Except String IdMap
  | [] => Except.ok m
  | ni :: rest =>
    match filesDictPop d ni.originalFilename with
    | Except.error e => Except.error e
    | Except.ok (ri, d') =>
      fixImagesLoop (dictPut (dictPut m ri.id ni.id) ri.baseImage ni.baseImage) d' rest

/-- The `for new_image in new_images:` header at importer.py line 373.
When the polling loop never ran, `new_images` is still `None` and the
iteration raises `TypeError`. -/
def fixImageInsts (m : IdMap) (d : FilesDict) : Option (List NewImage) → Except String IdMap
  | none => Except.error ("TypeError")
  | some l => fixImagesLoop m d l

/-- The tail of `import_images` (importer.py lines 358-394): poll for
the deployed image instances, then run the fix-up pass over whatever
`new_images` holds. -/
def import_images_wait_and_fix (m : IdMap) (remote : List RemoteImage)
    (obs : Nat → List NewImage) : PollResult NewImage × Except String IdMap :=
  let pr := importImagesPoll NewImage remote.length obs
  (pr, fixImageInsts m (buildRemoteImagesDict remote) pr.result)

/-! ## Project import and name collisions (importer.py lines 246-283) -/

/-- Python `str.strip()` on the default whitespace set, applied to the
remote project name (line 254) and remote ontology name (line 163):
drop leading and trailing whitespace characters. -/
def pyStrip (s : String) : String :=
  String.mk (((s.data.dropWhile Char.isWhitespace).reverse.dropWhile Char.isWhitespace).reverse)

/-- The f-string `f"{name} ({i})"` used for collision suffixes in both
`available_name` (line 261) and the ontology rename loop (line 194). -/
def suffixName (base : String) (i : Nat) : String :=
  base ++ " (" ++ toString i ++ ")"

/-- The `while` loop of `available_name` (importer.py lines 256-263):
starting from the desired name, try `base (1)`, `base (2)`, ... until a
name not carried by any existing project is found.  The loop always
terminates because the candidates are pairwise distinct and the
existing-name list is finite; `fuel` makes that bound explicit and
`none` is unreachable for sufficient fuel. -/
def available_name_loop (existingNames : List String) (base : String) :
    String → Nat → Nat → Option String
  | _, _, 0 => none
  | cur, i, fuel + 1 =>
    if cur ∈ existingNames then
      available_name_loop existingNames base (suffixName base i) (i + 1) fuel
    else some cur

/-- `available_name` entered with `new_name = project.name` and `i = 1`. -/
def available_name (existingNames : List String) (base : String) (fuel : Nat) :
    Option String :=
  available_name_loop existingNames base base 1 fuel

/-- `import_project` (importer.py lines 246-283) restricted to the name
computation: the remote name is stripped, a free name is chosen, and a
brand-new project is unconditionally saved under it (the code has no
reuse branch at all — `project.id = None` followed by `project.save()`).
The returned value is the name of the project that gets created. -/
def import_project (existingNames : List String) (remoteName : String) (fuel : Nat) :
    Option String :=
  available_name existingNames (pyStrip remoteName) fuel

/-! ## Ontology import (importer.py lines 153-244) -/

/-- A target-side ontology, as seen through `OntologyCollection().fetch()`. -/
structure Ont where
  id : Nat
  name : String
deriving DecidableEq

/-- A target-side term, as seen through `TermCollection().fetch()`. -/
structure Trm where
  id : Nat
  name : String
  color : String
  ontology : Nat
  parent : Option Nat
deriving DecidableEq

/-- A snapshot (remote) term parsed from the term-collection JSON. -/
structure RTrm where
  id : Nat
  name : String
  color : String
  ontology : Nat
  parent : Option Nat
deriving DecidableEq

/-- The snapshot ontology parsed from the ontology JSON. -/
structure RemoteOntology where
  id : Nat
  name : String
  user : Nat
deriving DecidableEq

/-- The target server state touched by `import_ontology`: the fetched
ontology and term collections, plus a fresh-identifier counter modelling
the server's allocation of new ids on `save()`. -/
structure Target where
  ontologies : List Ont
  terms : List Trm
  nextId : Nat
deriving DecidableEq

/-- The `(t.name, t.color)` pairs of the target terms attached to
ontology `oid` — `set1` in `ontology_exists` (importer.py lines 176-180). -/
def termPairs (terms : List Trm) (oid : Nat) : List (String × String) :=
  (terms.filter (fun t => t.ontology = oid)).map (fun t => (t.name, t.color))

/-- `ontology_exists` (importer.py lines 171-188) for a given candidate
name: take the FIRST existing ontology carrying the name; if its term
pairs contain every remote `(name, color)` pair the ontology is reused,
if some remote pair is missing the candidate name is rejected, and if no
ontology carries the name the name is free for creation.  (The source
re-strips the candidate inside the comparison; the candidate names built
by the callers are already strip-invariant, so the embedding applies the
strip once at entry of `import_ontology` instead.) -/
def ontology_exists (ontologies : List Ont) (terms : List Trm) (name : String)
    (remote_terms : List RTrm) : Bool × Option Ont :=
  match find_first (ontologies.filter (fun o => o.name = name)) with
  | some compatible =>
    let set1 := termPairs terms compatible.id
    let difference := remote_terms.filter (fun t => (t.name, t.color) ∉ set1)
    if difference.length = 0 then (true, some compatible) else (false, none)
  | none => (true, none)

/-- The rename loop of `import_ontology` (importer.py lines 190-196):
retry `ontology_exists` under `base (1)`, `base (2)`, ... until it stops
returning `found = False`.  Fuel-indexed as for `available_name_loop`. -/
def ont_name_loop (ontologies : List Ont) (terms : List Trm) (remote_terms : List RTrm)
    (base : String) : String → Nat → Nat → Option (String × Option Ont)
  | _, _, 0 => none
  | cur, i, fuel + 1 =>
    match ontology_exists ontologies terms cur remote_terms with
    | (true, ex) => some (cur, ex)
    | (false, _) => ont_name_loop ontologies terms remote_terms base (suffixName base i) (i + 1) fuel

/-- One persisted side effect of the ontology-creation branch. -/
inductive OntoAction where
  | createOntology (id : Nat) (name : String) (user : Nat)
  | createTerm (id : Nat) (name : String) (color : String) (ontology : Nat)
  | createRelation (parent : Nat) (child : Nat)
deriving DecidableEq

/-- Whether an action is a `RelationTerm(...).save()`. -/
def isRelAction : OntoAction → Bool
  | .createRelation _ _ => true
  | _ => false

/-- The term-creation loop (importer.py lines 211-222): for each remote
term in snapshot order, rewrite its ontology reference through
`id_mapping` (a `KeyError` propagates), clear its parent, save it under
a fresh id, and record the origin-to-target mapping before moving on. -/
def create_terms (m : IdMap) : Nat → List RTrm →
    Except String (IdMap × Nat × List Trm × List OntoAction)
  | nid, [] => Except.ok (m, nid, [], [])
  | nid, rt :: rest =>
    match dictGet m rt.ontology with
    | none => Except.error ("KeyError")
    | some oid =>
      match create_terms (dictPut m rt.id nid) (nid + 1) rest with
      | Except.error e => Except.error e
      | Except.ok (m', nid', ts, acts) =>
        Except.ok (m', nid', ⟨nid, rt.name, rt.color, oid, none⟩ :: ts,
          OntoAction.createTerm nid rt.name rt.color oid :: acts)

/-- Python truthiness of `if parent:` at importer.py line 227: both
`None` and `0` are falsy. -/
def truthyParent (rt : RTrm) : Bool :=
  match rt.parent with
  | none => false
  | some p => p != 0

/-- The relation replay loop (importer.py lines 224-231): for each
`(term.parent, term.id)` pair with a truthy parent, save a
`RelationTerm` between the mapped parent and the mapped child. -/
def create_relations (m : IdMap) : List RTrm → Except String (List OntoAction)
  | [] => Except.ok []
  | rt :: rest =>
    match rt.parent with
    | none => create_relations m rest
    | some p =>
      if p = 0 then create_relations m rest
      else
        match dictGet m p with
        | none => Except.error ("KeyError")
        | some tp =>
          match dictGet m rt.id with
          | none => Except.error ("KeyError")
          | some tc =>
            match create_relations m rest with
            | Except.error e => Except.error e
            | Except.ok acts => Except.ok (OntoAction.createRelation tp tc :: acts)

/-- The reuse branch's term-mapping loop (importer.py lines 235-239):
map each remote term to the FIRST existing term of the reused ontology
with the same name; `find_first` returning `None` makes the `.id` access
raise `AttributeError`. -/
def map_existing_terms (m : IdMap) (ontology_terms : List Trm) :
    List RTrm → Except String IdMap
  | [] => Except.ok m
  | rt :: rest =>
    match find_first (ontology_terms.filter (fun t => t.name = rt.name)) with
    | none => Except.error ("AttributeError")
    | some t => map_existing_terms (dictPut m rt.id t.id) ontology_terms rest

/-- Outcome of `import_ontology`: the target state after the run, the
`id_mapping` after the run, and the persisted creation side effects in
program order. -/
structure OntoResult where
  target : Target
  mapping : IdMap
  actions : List OntoAction
deriving DecidableEq

/-- `import_ontology` (importer.py lines 153-244).  The remote name is
stripped (line 163), the rename loop picks a name and decides reuse
vs. create (lines 190-196), the creator user is resolved through
`id_mapping` (line 199, a `KeyError` propagates), and then either a new
ontology plus its terms and relations are created (lines 200-231) or
the existing ontology's ids are recorded (lines 232-241). -/
def import_ontology (t : Target) (m : IdMap) (ro : RemoteOntology)
    (remote_terms : List RTrm) (fuel : Nat) : Except String OntoResult :=
  let base := pyStrip ro.name
  match ont_name_loop t.ontologies t.terms remote_terms base base 1 fuel with
  | none => Except.error ("fuel")
  | some (finalName, existsOnt) =>
    match dictGet m ro.user with
    | none => Except.error ("KeyError")
    | some creator =>
      match existsOnt with
      | some existing_ontology =>
        let m1 := dictPut m ro.id existing_ontology.id
        let ontology_terms := t.terms.filter (fun tm => tm.ontology = existing_ontology.id)
        match map_existing_terms m1 ontology_terms remote_terms with
        | Except.error e => Except.error e
        | Except.ok m2 => Except.ok ⟨t, m2, []⟩
      | none =>
        let ontId := t.nextId
        let m1 := dictPut m ro.id ontId
        match create_terms m1 (ontId + 1) remote_terms with
        | Except.error e => Except.error e
        | Except.ok (m2, nid', newTerms, termActs) =>
          match create_relations m2 remote_terms with
          | Except.error e => Except.error e
          | Except.ok relActs =>
            Except.ok ⟨⟨t.ontologies ++ [⟨ontId, finalName⟩], t.terms ++ newTerms, nid'⟩,
              m2,
              OntoAction.createOntology ontId finalName creator :: (termActs ++ relActs)⟩

/-! ## Annotation import (importer.py lines 406-449) -/

/-- A snapshot user annotation.  `location` carries the WKT geometry
string, which the import never touches. -/
structure Annot where
  id : Option Nat
  slice : Option Nat
  project : Nat
  image : Nat
  user : Nat
  term : List Nat
  location : String
  created : Option Nat
  updated : Option Nat
deriving DecidableEq

/-- The list comprehension `[id_mapping[t] for t in remote_annotation.term]`
(importer.py line 429); a missing term id raises `KeyError`. -/
def lookup_terms (m : IdMap) : List Nat → Except String (List Nat)
  | [] => Except.ok []
  | t :: rest =>
    match dictGet m t with
    | none => Except.error ("KeyError")
    | some v =>
      match lookup_terms m rest with
      | Except.error e => Except.error e
      | Except.ok vs => Except.ok (v :: vs)

/-- The nested `_add_annotation` task of `import_annotations`
(importer.py lines 416-433).  If the project or image reference is not
a key of `id_mapping` the task returns without saving; otherwise the
copy gets `id = None`, `slice = None`, its project/image/user references
and every term rewritten through `id_mapping` (an unmapped user or term
raises `KeyError`), its timestamps cleared unless original dates are
preserved, and is saved.  `ok none` models the silent skip, `ok (some a)`
models `annotation.save()` of `a`, `error` models a raised `KeyError`. -/
def add_annot (m : IdMap) (with_original_date : Bool) (ra : Annot) :
    Except String (Option Annot) :=
  if ¬ dictMem m ra.project ∨ ¬ dictMem m ra.image then Except.ok none
  else
    match dictGet m ra.project with
    | none => Except.error ("KeyError")
    | some p =>
      match dictGet m ra.image with
      | none => Except.error ("KeyError")
      | some im =>
        match dictGet m ra.user with
        | none => Except.error ("KeyError")
        | some u =>
          match lookup_terms m ra.term with
          | Except.error e => Except.error e
          | Except.ok ts =>
            Except.ok (some { ra with
              id := none
              slice := none
              project := p
              image := im
              user := u
              term := ts
              created := if with_original_date then ra.created else none
              updated := if with_original_date then ra.updated else none })

/-! ## Metadata import (importer.py lines 451-484) -/

/-- A snapshot key-value property. -/
structure PropRec where
  id : Option Nat
  domainIdent : Nat
  key : String
  value : String
deriving DecidableEq

/-- One iteration of the property loop (importer.py lines 458-464):
`prop.domainIdent = self.id_mapping[prop.domainIdent]` raises `KeyError`
when the described entity was never mapped; the error propagates out of
`import_metadata` and aborts the run. -/
def import_property (m : IdMap) (p : PropRec) : Except String PropRec :=
  match dictGet m p.domainIdent with
  | none => Except.error ("KeyError")
  | some t => Except.ok { p with id := none, domainIdent := t }

/-- A snapshot attached file. -/
structure AttachedFileRec where
  id : Option Nat
  domainIdent : Nat
  filename : String
deriving DecidableEq

/-- One iteration of the attached-file loop (importer.py lines 466-475):
the domain reference is rewritten through `id_mapping` (fatal `KeyError`
when unresolved) and the filename is re-rooted under the working path. -/
def import_attached_file (working_path : String) (m : IdMap) (af : AttachedFileRec) :
    Except String AttachedFileRec :=
  match dictGet m af.domainIdent with
  | none => Except.error ("KeyError")
  | some t =>
    Except.ok { af with
      id := none
      domainIdent := t
      filename := working_path ++ "/attached_files/" ++ af.filename }

/-- A snapshot description. -/
structure DescriptionRec where
  id : Option Nat
  domainIdent : Nat
  data : String
deriving DecidableEq

/-- One iteration of the description loop (importer.py lines 477-484):
the domain reference is rewritten through `id_mapping`, fatally when
unresolved. -/
def import_description (m : IdMap) (d : DescriptionRec) : Except String DescriptionRec :=
  match dictGet m d.domainIdent with
  | none => Except.error ("KeyError")
  | some t => Except.ok { d with id := none, domainIdent := t }

/-! ## Basic dictionary lemmas -/

theorem dictGet_put (m : IdMap) (k v : Nat) : dictGet (dictPut m k v) k = some v := by
  simp [dictPut, dictGet]

theorem dictGet_put_ne (m : IdMap) (k k' v : Nat) (h : k' ≠ k) :
    dictGet (dictPut m k' v) k = dictGet m k := by
  simp [dictPut, dictGet, h]

theorem dictGet_put_isSome (m : IdMap) (k k' v : Nat) (h : (dictGet m k).isSome) :
    (dictGet (dictPut m k' v) k).isSome := by
  by_cases hk : k' = k
  · subst hk; simp [dictGet_put]
  · rwa [dictGet_put_ne m k k' v hk]

theorem dictGet_foldl_not_mem (ps : List (Nat × Nat)) :
    ∀ (acc : IdMap) (k : Nat), k ∉ ps.map Prod.fst →
      dictGet (ps.foldl (fun m q => dictPut m q.1 q.2) acc) k = dictGet acc k := by
  induction ps with
  | nil => intro acc k _; rfl
  | cons q rest ih =>
    intro acc k hk
    simp only [List.map_cons, List.mem_cons] at hk
    push_neg at hk
    simp only [List.foldl_cons]
    rw [ih (dictPut acc q.1 q.2) k hk.2, dictGet_put_ne acc k q.1 q.2 (Ne.symm hk.1)]

/-! ## Claim theorems: identifier mapping (C3, C4) -/

/-- C3 counterexample: re-mapping an already-mapped origin identifier to
a different target does not fail: the second `d[k] = v` silently
succeeds and the subsequent lookup returns the new target, not the
original one.  The claim's "fails rather than overwriting" is false for
the plain dict the importer uses. -/
theorem c3_id_mapping_remap_counterexample :
    dictGet (dictPut (dictPut dictEmpty 1 10) 1 20) 1 = some 20 ∧ (20 : Nat) ≠ 10 := by
  constructor
  · rfl
  · decide

/-- C3 amended: the identifier mapping is a plain dict keyed by the bare
origin identifier; a later assignment for an already-mapped key silently
overwrites the earlier target (last write wins), and the key set only
grows: a put never removes an existing key. -/
theorem c3_id_mapping_overwrite_amended (m : IdMap) (k v v' : Nat) :
    dictGet (dictPut (dictPut m k v) k v') k = some v' ∧
    (∀ k', (dictGet m k').isSome → (dictGet (dictPut m k v) k').isSome) := by
  constructor
  · exact dictGet_put (dictPut m k v) k v'
  · intro k' h; exact dictGet_put_isSome m k' k v h

/-- C3 amended witness at a concrete mapping. -/
theorem c3_id_mapping_overwrite_amended_witness :
    dictGet (dictPut (dictPut [(2, 5)] 1 10) 1 20) 1 = some 20 ∧
    (dictGet (dictPut [(2, 5)] 1 10) 2).isSome := by
  refine ⟨(c3_id_mapping_overwrite_amended [(2, 5)] 1 10 20).1,
    (c3_id_mapping_overwrite_amended [(2, 5)] 1 10 20).2 2 (by decide)⟩

/-- C4: a lookup right after a put of `(k, target)` returns exactly
`target`; a lookup for a key that no put of the run ever wrote fails
(the raised `KeyError`, modelled as `none`, is the unresolved-reference
error — no value and no silent null is returned); and each metadata
step of metadata (property, attached file, description) rewrites its
`domainIdent` through the mapping, fatally when the reference is
unresolved. -/
theorem c4_remapper_lookup_contract (m : IdMap) (k v : Nat) (ps : List (Nat × Nat))
    (p : PropRec) (wp : String) (af : AttachedFileRec) (d : DescriptionRec) :
    dictGet (dictPut m k v) k = some v ∧
    (k ∉ ps.map Prod.fst →
      dictGet (ps.foldl (fun acc q => dictPut acc q.1 q.2) dictEmpty) k = none) ∧
    (dictGet m p.domainIdent = none → import_property m p = Except.error ("KeyError")) ∧
    (∀ tg, dictGet m p.domainIdent = some tg →
      import_property m p = Except.ok { p with id := none, domainIdent := tg }) ∧
    (dictGet m af.domainIdent = none →
      import_attached_file wp m af = Except.error ("KeyError")) ∧
    (∀ tg, dictGet m af.domainIdent = some tg →
      import_attached_file wp m af = Except.ok { af with
        id := none, domainIdent := tg,
        filename := wp ++ "/attached_files/" ++ af.filename }) ∧
    (dictGet m d.domainIdent = none → import_description m d = Except.error ("KeyError")) ∧
    (∀ tg, dictGet m d.domainIdent = some tg →
      import_description m d = Except.ok { d with id := none, domainIdent := tg }) := by
  refine ⟨dictGet_put m k v, ?_, ?_, ?_, ?_, ?_, ?_, ?_⟩
  · intro hk; rw [dictGet_foldl_not_mem ps dictEmpty k hk]; rfl
  · intro h; unfold import_property; rw [h]
  · intro tg h; unfold import_property; rw [h]
  · intro h; unfold import_attached_file; rw [h]
  · intro tg h; unfold import_attached_file; rw [h]
  · intro h; unfold import_description; rw [h]
  · intro tg h; unfold import_description; rw [h]

/-- C4 witness: the contract evaluated at a concrete mapping and
concrete metadata records. -/
theorem c4_remapper_lookup_contract_witness :
    dictGet (dictPut [(3, 30)] 4 40) 4 = some 40 ∧
    dictGet ([((3 : Nat), (30 : Nat))].foldl (fun acc q => dictPut acc q.1 q.2) dictEmpty) 4 = none ∧
    import_property [(3, 30)] ⟨some 1, 3, "kk", "vv"⟩ = Except.ok ⟨none, 30, "kk", "vv"⟩ ∧
    import_property [(3, 30)] ⟨some 1, 9, "kk", "vv"⟩ = Except.error ("KeyError") ∧
    import_attached_file "wp" [(3, 30)] ⟨some 1, 3, "f.txt"⟩ =
      Except.ok ⟨none, 30, "wp/attached_files/f.txt"⟩ ∧
    import_description [(3, 30)] ⟨some 1, 9, "dd"⟩ = Except.error ("KeyError") := by
  have h := c4_remapper_lookup_contract [(3, 30)] 4 40 [((3 : Nat), (30 : Nat))]
    ⟨some 1, 3, "kk", "vv"⟩ "wp" ⟨some 1, 3, "f.txt"⟩ ⟨some 1, 9, "dd"⟩
  have h2 := c4_remapper_lookup_contract [(3, 30)] 4 40 [((3 : Nat), (30 : Nat))]
    ⟨some 1, 9, "kk", "vv"⟩ "wp" ⟨some 1, 3, "f.txt"⟩ ⟨some 1, 9, "dd"⟩
  refine ⟨h.1, h.2.1 (by decide), h.2.2.2.1 30 (by decide), h2.2.2.1 (by decide),
    h.2.2.2.2.2.1 30 (by decide), h.2.2.2.2.2.2.1 (by decide)⟩

/-! ## Claim theorems: empty image collection (C10) -/

/-- C10: with an empty snapshot image collection the expected count is
zero, so the convergence loop performs zero queries (empty trace), the
`new_images` variable is never assigned and stays `None`, and the
subsequent fix-up pass fails with a `TypeError` when it iterates `None`
instead of completing trivially with zero images. -/
theorem c10_empty_image_collection (m : IdMap) (obs : Nat → List NewImage) :
    (import_images_wait_and_fix m [] obs).1.trace = [] ∧
    (import_images_wait_and_fix m [] obs).1.result = none ∧
    (import_images_wait_and_fix m [] obs).2 = Except.error ("TypeError") := by
  exact ⟨rfl, rfl, rfl⟩

/-! ## Claim theorems: annotation import (C7) -/

theorem lookup_terms_map (m : IdMap) :
    ∀ (l : List Nat) (ts : List Nat), lookup_terms m l = Except.ok ts →
      l.map (dictGet m) = ts.map some := by
  intro l
  induction l with
  | nil =>
    intro ts h
    simp only [lookup_terms] at h
    cases h
    rfl
  | cons t rest ih =>
    intro ts h
    simp only [lookup_terms] at h
    cases h1 : dictGet m t with
    | none => rw [h1] at h; cases h
    | some v =>
      rw [h1] at h
      cases h2 : lookup_terms m rest with
      | error e => rw [h2] at h; cases h
      | ok vs =>
        rw [h2] at h
        cases h
        simp only [List.map_cons, h1, ih vs h2]

/-- C7 counterexample: the claim's "otherwise it is persisted ... and
all other fields passed through unchanged" fails twice on the code.
First, an annotation whose project and image references are mapped but
whose user is not makes `_add_annotation` raise a `KeyError` instead of
persisting.  Second, a fully resolvable annotation is persisted with its
`slice` field (and its timestamps, by default) cleared to `None`, not
passed through: the snapshot values `slice = 8`, `created = 4`,
`updated = 5` are all dropped. -/
theorem c7_annot_import_counterexample :
    add_annot [(1, 10), (2, 20)] false
      ⟨some 9, some 8, 1, 2, 3, [], "POLY", some 4, some 5⟩ =
      Except.error ("KeyError") ∧
    add_annot [(1, 10), (2, 20), (3, 30)] false
      ⟨some 9, some 8, 1, 2, 3, [], "POLY", some 4, some 5⟩ =
      Except.ok (some ⟨none, none, 10, 20, 30, [], "POLY", none, none⟩) := by
  constructor
  · rfl
  · rfl

theorem lookup_terms_unmapped (m : IdMap) :
    ∀ (l : List Nat), (∃ x ∈ l, dictGet m x = none) →
      lookup_terms m l = Except.error ("KeyError") := by
  intro l
  induction l with
  | nil =>
    rintro ⟨x, hx, _⟩
    exact absurd hx (List.not_mem_nil x)
  | cons t rest ih =>
    rintro ⟨x, hx, hget⟩
    simp only [lookup_terms]
    cases h1 : dictGet m t with
    | none => rfl
    | some v =>
      have hxr : x ∈ rest := by
        rcases List.mem_cons.mp hx with h2 | h2
        · subst h2
          rw [h1] at hget
          cases hget
        · exact h2
      rw [ih ⟨x, hxr, hget⟩]

/-- C7 amended: an annotation whose project or image reference is
absent from the mapping is silently skipped (no persist, no retry); one
whose project and image are mapped but whose user is unmapped, or whose
user is mapped but one of whose terms is unmapped (which makes the term
lookup fail), makes the task raise a `KeyError` rather than persist;
otherwise it is persisted with project, image, user and every term
rewritten through the mapping, its `id` and `slice` cleared, its
timestamps cleared unless original dates are preserved, and the
remaining fields — including the WKT geometry — passed through
unchanged. -/
theorem c7_annot_import_amended (m : IdMap) (wd : Bool) (ra : Annot) :
    ((dictMem m ra.project = false ∨ dictMem m ra.image = false) →
      add_annot m wd ra = Except.ok none) ∧
    (dictMem m ra.project = true → dictMem m ra.image = true →
      dictGet m ra.user = none → add_annot m wd ra = Except.error ("KeyError")) ∧
    (∀ u, dictMem m ra.project = true → dictMem m ra.image = true →
      dictGet m ra.user = some u → lookup_terms m ra.term = Except.error ("KeyError") →
      add_annot m wd ra = Except.error ("KeyError")) ∧
    ((∃ x ∈ ra.term, dictGet m x = none) →
      lookup_terms m ra.term = Except.error ("KeyError")) ∧
    (∀ p im u ts, dictGet m ra.project = some p → dictGet m ra.image = some im →
      dictGet m ra.user = some u → lookup_terms m ra.term = Except.ok ts →
      add_annot m wd ra = Except.ok (some { ra with
        id := none, slice := none, project := p, image := im, user := u, term := ts,
        created := if wd then ra.created else none,
        updated := if wd then ra.updated else none })) ∧
    (∀ ts, lookup_terms m ra.term = Except.ok ts →
      ra.term.map (dictGet m) = ts.map some) := by
  refine ⟨?_, ?_, ?_, ?_, ?_, ?_⟩
  · intro h
    unfold add_annot
    rw [if_pos]
    rcases h with h | h
    · exact Or.inl (by simp [h])
    · exact Or.inr (by simp [h])
  · intro hp hq hu
    unfold add_annot
    rw [if_neg (by simp [hp, hq])]
    obtain ⟨p, hpv⟩ := Option.isSome_iff_exists.mp (by simpa [dictMem] using hp)
    obtain ⟨im, hqv⟩ := Option.isSome_iff_exists.mp (by simpa [dictMem] using hq)
    rw [hpv, hqv, hu]
  · intro u hp hq hu hterr
    unfold add_annot
    rw [if_neg (by simp [hp, hq])]
    obtain ⟨p, hpv⟩ := Option.isSome_iff_exists.mp (by simpa [dictMem] using hp)
    obtain ⟨im, hqv⟩ := Option.isSome_iff_exists.mp (by simpa [dictMem] using hq)
    rw [hpv, hqv, hu, hterr]
  · exact lookup_terms_unmapped m ra.term
  · intro p im u ts hpv hqv hu hts
    unfold add_annot
    rw [if_neg (by simp [dictMem, hpv, hqv])]
    rw [hpv, hqv, hu, hts]
  · exact lookup_terms_map m ra.term

/-- C7 amended witness: the skip branch, the unmapped-user raise, the
mapped-user unmapped-term raise, and the rewrite branch, evaluated at
concrete annotations. -/
theorem c7_annot_import_amended_witness :
    add_annot [(1, 10), (2, 20), (3, 30), (4, 40)] false
      ⟨some 9, some 8, 1, 2, 3, [4], "POLY", some 4, some 5⟩ =
      Except.ok (some ⟨none, none, 10, 20, 30, [40], "POLY", none, none⟩) ∧
    add_annot [(2, 20)] false ⟨some 9, some 8, 1, 2, 3, [], "POLY", some 4, some 5⟩ =
      Except.ok none ∧
    add_annot [(1, 10), (2, 20)] true ⟨some 9, some 8, 1, 2, 3, [], "POLY", some 4, some 5⟩ =
      Except.error ("KeyError") ∧
    add_annot [(1, 10), (2, 20), (3, 30)] false
      ⟨some 9, some 8, 1, 2, 3, [99], "POLY", some 4, some 5⟩ =
      Except.error ("KeyError") := by
  refine ⟨(c7_annot_import_amended [(1, 10), (2, 20), (3, 30), (4, 40)] false
      ⟨some 9, some 8, 1, 2, 3, [4], "POLY", some 4, some 5⟩).2.2.2.2.1 10 20 30 [40]
      rfl rfl rfl rfl,
    (c7_annot_import_amended [(2, 20)] false
      ⟨some 9, some 8, 1, 2, 3, [], "POLY", some 4, some 5⟩).1 (Or.inl rfl),
    (c7_annot_import_amended [(1, 10), (2, 20)] true
      ⟨some 9, some 8, 1, 2, 3, [], "POLY", some 4, some 5⟩).2.1 rfl rfl rfl,
    (c7_annot_import_amended [(1, 10), (2, 20), (3, 30)] false
      ⟨some 9, some 8, 1, 2, 3, [99], "POLY", some 4, some 5⟩).2.2.1 30
      rfl rfl rfl rfl⟩

/-! ## Claim theorems: project name collisions (C5) -/

/-- The name the collision loop holds when its counter is `i + 1`:
the base name for `i = 0`, the `i`-th suffixed candidate afterwards. -/
def candName (base : String) : Nat → String
  | 0 => base
  | j + 1 => suffixName base (j + 1)

theorem available_name_loop_reaches (existing : List String) (base : String) (n : Nat)
    (hn : 1 ≤ n)
    (hcand : ∀ j, j < n → candName base j ∈ existing)
    (hfree : suffixName base n ∉ existing) :
    ∀ fuel i, 1 ≤ i → i ≤ n + 1 → n + 2 - i ≤ fuel →
      available_name_loop existing base (candName base (i - 1)) i fuel =
        some (suffixName base n) := by
  intro fuel
  induction fuel with
  | zero => intro i h1 h2 h3; omega
  | succ f ih =>
    intro i h1 h2 h3
    rcases Nat.lt_or_ge i (n + 1) with hlt | hge
    · have hmem : candName base (i - 1) ∈ existing := hcand (i - 1) (by omega)
      simp only [available_name_loop, if_pos hmem]
      have hstep : suffixName base i = candName base ((i + 1) - 1) := by
        have : i - 1 + 1 = i := by omega
        simp only [Nat.add_sub_cancel]
        cases i with
        | zero => omega
        | succ j => rfl
      rw [hstep]
      exact ih (i + 1) (by omega) (by omega) (by omega)
    · have hi : i = n + 1 := by omega
      subst hi
      have hcur : candName base (n + 1 - 1) = suffixName base n := by
        simp only [Nat.add_sub_cancel]
        cases n with
        | zero => omega
        | succ j => rfl
      rw [hcur]
      simp only [available_name_loop, if_neg hfree]

/-- C5: project import always creates a new project (the code has no
reuse branch: the name loop's result is unconditionally saved as a new
project), and name collisions take the smallest free suffix: a target
holding exactly "P" yields "P (1)", a target holding "P" and "P (1)"
yields "P (2)", a collision-free name is kept as is, and in general a
colliding base name receives the suffix " (n)" for the least `n` whose
candidate is absent from the existing project names. -/
theorem c5_project_name_collision :
    import_project ["P"] "P" 10 = some ("P (1)") ∧
    import_project ["P", "P (1)"] "P" 10 = some ("P (2)") ∧
    (∀ existing remoteName fuel, 1 ≤ fuel → pyStrip remoteName ∉ existing →
      import_project existing remoteName fuel = some (pyStrip remoteName)) ∧
    (∀ existing base n fuel, base ∈ existing → 1 ≤ n →
      (∀ j, 1 ≤ j → j < n → suffixName base j ∈ existing) →
      suffixName base n ∉ existing → n + 1 ≤ fuel →
      available_name existing base fuel = some (suffixName base n)) := by
  refine ⟨by decide, by decide, ?_, ?_⟩
  · intro existing remoteName fuel hf hfree
    unfold import_project available_name
    cases fuel with
    | zero => omega
    | succ f => simp only [available_name_loop, if_neg hfree]
  · intro existing base n fuel hbase hn hmem hfree hfuel
    unfold available_name
    have hcand : ∀ j, j < n → candName base j ∈ existing := by
      intro j hj
      cases j with
      | zero => exact hbase
      | succ k => exact hmem (k + 1) (by omega) hj
    have h := available_name_loop_reaches existing base n hn hcand hfree fuel 1
      (by omega) (by omega) (by omega)
    simpa [candName] using h

/-- C5 witness: the general smallest-suffix clause evaluated at a
concrete colliding target. -/
theorem c5_project_name_collision_witness :
    available_name ["P", "Q", "P (1)"] "P" 5 = some (suffixName "P" 2) := by
  refine c5_project_name_collision.2.2.2 ["P", "Q", "P (1)"] "P" 2 5 (by decide)
    (by omega) ?_ (by decide) (by omega)
  intro j h1 h2
  have hj : j = 1 := by omega
  subst hj
  decide

/-! ## Claim theorems: convergence poller (C2) -/

theorem pollLoop_stop (α : Type) (E : Nat) (obs : Nat → List α) (fuel : Nat)
    (cur : Option (List α)) (count : Nat) :
    pollLoop α E obs fuel (E : Int) cur count = ⟨[], cur⟩ := by
  cases fuel with
  | zero => rfl
  | succ f => simp [pollLoop]

theorem countP_trace_step (α : Type) (fetched : List α) (tl : List (PEvent α)) (count : Nat) :
    List.countP isQuery
      (PEvent.query fetched :: ((if 0 < count then [PEvent.sleep] else []) ++ tl)) =
      List.countP isQuery tl + 1 := by
  by_cases h0 : 0 < count <;>
    simp [h0, List.countP_cons, List.countP_append, isQuery]

theorem pollLoop_hits (α : Type) (E : Nat) (obs : Nat → List α) (k : Nat)
    (hk : k ≤ 5 * E) (hhit : (obs (k - 1)).length = E) :
    ∀ fuel count (n : Int) cur, fuel + count = 5 * E → n ≠ (E : Int) → count < k →
      (∀ i, count ≤ i → i < k - 1 → (obs i).length ≠ E) →
      (pollLoop α E obs fuel n cur count).trace.countP isQuery = k - count ∧
      (pollLoop α E obs fuel n cur count).result = some (obs (k - 1)) := by
  intro fuel
  induction fuel with
  | zero => intro count n cur hsum _ hck _; omega
  | succ f ih =>
    intro count n cur hsum hn hck hmiss
    simp only [pollLoop, if_neg hn]
    by_cases hc : count + 1 = k
    · have hlen : ((obs count).length : Int) = (E : Int) := by
        have : count = k - 1 := by omega
        rw [this, hhit]
      rw [hlen, pollLoop_stop]
      have hcount : count = k - 1 := by omega
      constructor
      · rw [countP_trace_step]
        simp only [List.countP_nil]
        omega
      · rw [hcount]
    · have hmc : (obs count).length ≠ E := hmiss count (by omega) (by omega)
      have hn' : ((obs count).length : Int) ≠ (E : Int) := by exact_mod_cast hmc
      have hrec := ih (count + 1) ((obs count).length : Int) (some (obs count))
        (by omega) hn' (by omega) (fun i h1 h2 => hmiss i (by omega) h2)
      refine ⟨?_, hrec.2⟩
      rw [countP_trace_step]
      have h1 := hrec.1
      omega

theorem pollLoop_miss (α : Type) (E : Nat) (obs : Nat → List α)
    (hmiss : ∀ i, i < 5 * E → (obs i).length ≠ E) :
    ∀ fuel count (n : Int) cur, fuel + count = 5 * E → n ≠ (E : Int) → 0 < fuel →
      (pollLoop α E obs fuel n cur count).trace.countP isQuery = fuel ∧
      (pollLoop α E obs fuel n cur count).result = some (obs (5 * E - 1)) := by
  intro fuel
  induction fuel with
  | zero => intro count n cur _ _ h0; omega
  | succ f ih =>
    intro count n cur hsum hn _
    simp only [pollLoop, if_neg hn]
    rcases Nat.eq_zero_or_pos f with hf | hf
    · subst hf
      have hcount : count = 5 * E - 1 := by omega
      constructor
      · rw [countP_trace_step]
        simp [pollLoop, List.countP_nil]
      · simp only [pollLoop, hcount]
    · have hmc : (obs count).length ≠ E := hmiss count (by omega)
      have hn' : ((obs count).length : Int) ≠ (E : Int) := by exact_mod_cast hmc
      have hrec := ih (count + 1) ((obs count).length : Int) (some (obs count)) (by omega) hn' hf
      refine ⟨?_, hrec.2⟩
      rw [countP_trace_step]
      have h1 := hrec.1
      omega

theorem pollLoop_first_event (α : Type) (E : Nat) (obs : Nat → List α) (fuel : Nat)
    (n : Int) (cur : Option (List α)) (count : Nat) (hn : n ≠ (E : Int)) (hf : 0 < fuel) :
    (pollLoop α E obs fuel n cur count).trace.head? = some (PEvent.query (obs count)) := by
  cases fuel with
  | zero => omega
  | succ f => simp [pollLoop, if_neg hn]

/-- C2: for any expected count `E >= 1` and any per-attempt observation
sequence, if the observed count first equals `E` at attempt `k <= 5E`
the loop performs exactly `k` queries and returns the collection of
exactly `E` image instances observed there; if no attempt among the
first `5E` observes `E`, the loop performs exactly `5E` queries and
returns the last observed partial collection (an `ok` value, nothing is
raised); and the first event of the loop's trace is a query, so no
sleep precedes the first attempt. -/
theorem c2_convergence_poller (E : Nat) (obs : Nat → List NewImage) (hE : 1 ≤ E) :
    (∀ k, 1 ≤ k → k ≤ 5 * E → (obs (k - 1)).length = E →
      (∀ i, i < k - 1 → (obs i).length ≠ E) →
      (importImagesPoll NewImage E obs).trace.countP isQuery = k ∧
      (importImagesPoll NewImage E obs).result = some (obs (k - 1)) ∧
      (obs (k - 1)).length = E) ∧
    ((∀ i, i < 5 * E → (obs i).length ≠ E) →
      (importImagesPoll NewImage E obs).trace.countP isQuery = 5 * E ∧
      (importImagesPoll NewImage E obs).result = some (obs (5 * E - 1))) ∧
    (importImagesPoll NewImage E obs).trace.head? = some (PEvent.query (obs 0)) := by
  have hneg : (-1 : Int) ≠ (E : Int) := by omega
  refine ⟨?_, ?_, ?_⟩
  · intro k hk1 hk5 hhit hmiss
    have h := pollLoop_hits NewImage E obs k hk5 hhit (5 * E) 0 (-1) none
      (by omega) hneg (by omega) (fun i h1 h2 => hmiss i h2)
    exact ⟨by simpa using h.1, h.2, hhit⟩
  · intro hmiss
    exact pollLoop_miss NewImage E obs hmiss (5 * E) 0 (-1) none (by omega) hneg (by omega)
  · exact pollLoop_first_event NewImage E obs (5 * E) (-1) none 0 hneg (by omega)

/-- C2 witness: a singleton project whose image arrives on the first
fetch — one query, the expected collection, query first. -/
theorem c2_convergence_poller_witness :
    (importImagesPoll NewImage 1 (fun _ => [⟨1, 2, "f"⟩])).trace.countP isQuery = 1 ∧
    (importImagesPoll NewImage 1 (fun _ => [⟨1, 2, "f"⟩])).result = some [⟨1, 2, "f"⟩] ∧
    (importImagesPoll NewImage 1 (fun _ => [⟨1, 2, "f"⟩])).trace.head? =
      some (PEvent.query [⟨1, 2, "f"⟩]) := by
  have h := c2_convergence_poller 1 (fun _ => [⟨1, 2, "f"⟩]) (by omega)
  have h1 := h.1 1 (by omega) (by omega) (by decide) (fun i hi => absurd hi (by omega))
  exact ⟨h1.1, h1.2.1, h.2.2⟩

/-! ## Ontology import helpers -/

/-- The `id_mapping` updates performed by the term-creation loop:
`m` after `d[rt.id] = nid`, `d[rt'.id] = nid + 1`, ... in snapshot order. -/
def put_ids (m : IdMap) : Nat → List RTrm → IdMap
  | _, [] => m
  | nid, rt :: rest => put_ids (dictPut m rt.id nid) (nid + 1) rest

/-- The terms persisted by the creation loop: fresh consecutive ids,
snapshot names and colors, the created ontology's id, a cleared parent. -/
def mk_terms (oid : Nat) : Nat → List RTrm → List Trm
  | _, [] => []
  | nid, rt :: rest => ⟨nid, rt.name, rt.color, oid, none⟩ :: mk_terms oid (nid + 1) rest

/-- The `Term().save()` actions of the creation loop, in snapshot order. -/
def mk_term_actions (oid : Nat) : Nat → List RTrm → List OntoAction
  | _, [] => []
  | nid, rt :: rest =>
    OntoAction.createTerm nid rt.name rt.color oid :: mk_term_actions oid (nid + 1) rest

theorem dictGet_put_ids_not_mem :
    ∀ (rts : List RTrm) (m : IdMap) (nid k : Nat), k ∉ rts.map RTrm.id →
      dictGet (put_ids m nid rts) k = dictGet m k := by
  intro rts
  induction rts with
  | nil => intro m nid k _; rfl
  | cons rt rest ih =>
    intro m nid k hk
    simp only [List.map_cons, List.mem_cons, not_or] at hk
    simp only [put_ids]
    rw [ih (dictPut m rt.id nid) (nid + 1) k hk.2,
      dictGet_put_ne m k rt.id nid (Ne.symm hk.1)]

theorem dictGet_put_ids_isSome :
    ∀ (rts : List RTrm) (m : IdMap) (nid k : Nat), (dictGet m k).isSome →
      (dictGet (put_ids m nid rts) k).isSome := by
  intro rts
  induction rts with
  | nil => intro m nid k h; exact h
  | cons rt rest ih =>
    intro m nid k h
    exact ih (dictPut m rt.id nid) (nid + 1) k (dictGet_put_isSome m k rt.id nid h)

theorem dictGet_put_ids_mem_isSome :
    ∀ (rts : List RTrm) (m : IdMap) (nid k : Nat), k ∈ rts.map RTrm.id →
      (dictGet (put_ids m nid rts) k).isSome := by
  intro rts
  induction rts with
  | nil => intro m nid k h; exact absurd h (List.not_mem_nil k)
  | cons rt rest ih =>
    intro m nid k h
    simp only [List.map_cons, List.mem_cons] at h
    by_cases hk : k ∈ rest.map RTrm.id
    · exact ih (dictPut m rt.id nid) (nid + 1) k hk
    · have hkrt : k = rt.id := by tauto
      subst hkrt
      simp only [put_ids]
      rw [dictGet_put_ids_not_mem rest (dictPut m rt.id nid) (nid + 1) rt.id hk, dictGet_put]
      rfl

theorem create_terms_eq (roid oid : Nat) :
    ∀ (rts : List RTrm) (m : IdMap) (nid : Nat),
      (∀ rt ∈ rts, rt.ontology = roid) →
      roid ∉ rts.map RTrm.id →
      dictGet m roid = some oid →
      create_terms m nid rts =
        Except.ok (put_ids m nid rts, nid + rts.length, mk_terms oid nid rts,
          mk_term_actions oid nid rts) := by
  intro rts
  induction rts with
  | nil =>
    intro m nid _ _ _
    simp [create_terms, put_ids, mk_terms, mk_term_actions]
  | cons rt rest ih =>
    intro m nid honto hro hm
    have h1 : rt.ontology = roid := honto rt (List.mem_cons_self rt rest)
    have hro1 : rt.id ≠ roid := by
      intro h
      apply hro
      rw [← h]
      exact List.mem_map_of_mem RTrm.id (List.mem_cons_self rt rest)
    have hro2 : roid ∉ rest.map RTrm.id := by
      intro h
      exact hro (by simpa using Or.inr h)
    have hm' : dictGet (dictPut m rt.id nid) roid = some oid := by
      rw [dictGet_put_ne m roid rt.id nid hro1]
      exact hm
    have hrest := ih (dictPut m rt.id nid) (nid + 1)
      (fun x hx => honto x (List.mem_cons_of_mem rt hx)) hro2 hm'
    have harith : nid + (rt :: rest).length = nid + 1 + rest.length := by
      simp only [List.length_cons]
      omega
    rw [harith]
    simp only [create_terms, h1, hm, hrest, put_ids, mk_terms, mk_term_actions]

theorem mk_terms_ontology (oid : Nat) :
    ∀ (rts : List RTrm) (nid : Nat) (tm : Trm), tm ∈ mk_terms oid nid rts →
      tm.ontology = oid := by
  intro rts
  induction rts with
  | nil => intro nid tm h; exact absurd h (List.not_mem_nil tm)
  | cons rt rest ih =>
    intro nid tm h
    rcases List.mem_cons.mp h with h1 | h2
    · subst h1; rfl
    · exact ih (nid + 1) tm h2

theorem mk_terms_pairs (oid : Nat) :
    ∀ (rts : List RTrm) (nid : Nat),
      (mk_terms oid nid rts).map (fun t => (t.name, t.color)) =
        rts.map (fun rt => (rt.name, rt.color)) := by
  intro rts
  induction rts with
  | nil => intro nid; rfl
  | cons rt rest ih => intro nid; simp [mk_terms, ih (nid + 1)]

theorem mk_terms_mem_name (oid : Nat) :
    ∀ (rts : List RTrm) (nid : Nat) (rt : RTrm), rt ∈ rts →
      ∃ tm ∈ mk_terms oid nid rts, tm.name = rt.name := by
  intro rts
  induction rts with
  | nil => intro nid rt h; exact absurd h (List.not_mem_nil rt)
  | cons x rest ih =>
    intro nid rt h
    rcases List.mem_cons.mp h with h1 | h2
    · subst h1
      exact ⟨⟨nid, rt.name, rt.color, oid, none⟩, List.mem_cons_self _ _, rfl⟩
    · obtain ⟨tm, htm, hname⟩ := ih (nid + 1) rt h2
      exact ⟨tm, List.mem_cons_of_mem _ htm, hname⟩

theorem mk_term_actions_length (oid : Nat) :
    ∀ (rts : List RTrm) (nid : Nat), (mk_term_actions oid nid rts).length = rts.length := by
  intro rts
  induction rts with
  | nil => intro nid; rfl
  | cons rt rest ih => intro nid; simp [mk_term_actions, ih (nid + 1)]

theorem mk_term_actions_get (oid : Nat) :
    ∀ (rts : List RTrm) (nid i : Nat) (h1 : i < rts.length)
      (h2 : i < (mk_term_actions oid nid rts).length),
      (mk_term_actions oid nid rts).get ⟨i, h2⟩ =
        OntoAction.createTerm (nid + i) (rts.get ⟨i, h1⟩).name (rts.get ⟨i, h1⟩).color oid := by
  intro rts
  induction rts with
  | nil => intro nid i h1 h2; simp at h1
  | cons rt rest ih =>
    intro nid i h1 h2
    cases i with
    | zero => rfl
    | succ j =>
      have hj1 : j < rest.length := by simpa using h1
      have hj2 : j < (mk_term_actions oid (nid + 1) rest).length := by
        rw [mk_term_actions_length oid rest (nid + 1)]; exact hj1
      have hstep := ih (nid + 1) j hj1 hj2
      have harith : nid + 1 + j = nid + (j + 1) := by omega
      simp only [mk_term_actions, List.get_cons_succ]
      rw [hstep, harith]

theorem create_relations_ok :
    ∀ (rts : List RTrm) (m : IdMap),
      (∀ rt ∈ rts, ∀ p, rt.parent = some p → p ≠ 0 → (dictGet m p).isSome) →
      (∀ rt ∈ rts, (dictGet m rt.id).isSome) →
      ∃ acts, create_relations m rts = Except.ok acts ∧
        (∀ a ∈ acts, isRelAction a = true) ∧
        acts.length = (rts.filter truthyParent).length := by
  intro rts
  induction rts with
  | nil =>
    intro m _ _
    exact ⟨[], rfl, fun a h => absurd h (List.not_mem_nil a), rfl⟩
  | cons rt rest ih =>
    intro m hpar hid
    obtain ⟨acts, hacts, hrel, hlen⟩ := ih m
      (fun x hx => hpar x (List.mem_cons_of_mem rt hx))
      (fun x hx => hid x (List.mem_cons_of_mem rt hx))
    cases hp : rt.parent with
    | none =>
      refine ⟨acts, ?_, hrel, ?_⟩
      · simp only [create_relations, hp]
        exact hacts
      · rw [hlen]
        simp [List.filter_cons, truthyParent, hp]
    | some p =>
      by_cases hp0 : p = 0
      · subst hp0
        refine ⟨acts, ?_, hrel, ?_⟩
        · simp only [create_relations, hp, if_pos rfl]
          exact hacts
        · rw [hlen]
          simp [List.filter_cons, truthyParent, hp]
      · obtain ⟨tp, htp⟩ := Option.isSome_iff_exists.mp
          (hpar rt (List.mem_cons_self rt rest) p hp hp0)
        obtain ⟨tc, htc⟩ := Option.isSome_iff_exists.mp (hid rt (List.mem_cons_self rt rest))
        refine ⟨OntoAction.createRelation tp tc :: acts, ?_, ?_, ?_⟩
        · simp only [create_relations, hp, if_neg hp0, htp, htc, hacts]
        · intro a ha
          rcases List.mem_cons.mp ha with h1 | h2
          · subst h1; rfl
          · exact hrel a h2
        · simp [List.filter_cons, truthyParent, hp, hp0, hlen]

theorem map_existing_terms_ok (ots : List Trm) :
    ∀ (rts : List RTrm) (m : IdMap),
      (∀ rt ∈ rts, ∃ tm ∈ ots, tm.name = rt.name) →
      ∃ m', map_existing_terms m ots rts = Except.ok m' ∧
        (∀ k, k ∉ rts.map RTrm.id → dictGet m' k = dictGet m k) ∧
        ((rts.map RTrm.id).Nodup → ∀ rt ∈ rts,
          ∃ tm, find_first (ots.filter (fun t => t.name = rt.name)) = some tm ∧
            dictGet m' rt.id = some tm.id) := by
  intro rts
  induction rts with
  | nil =>
    intro m _
    exact ⟨m, rfl, fun k _ => rfl, fun _ rt h => absurd h (List.not_mem_nil rt)⟩
  | cons rt rest ih =>
    intro m hex
    obtain ⟨tm0, htm0mem, htm0name⟩ := hex rt (List.mem_cons_self rt rest)
    obtain ⟨t0, ht0⟩ : ∃ t0, find_first (ots.filter (fun t => t.name = rt.name)) = some t0 := by
      cases hh : (ots.filter (fun t => t.name = rt.name)).head? with
      | none =>
        exfalso
        rw [List.head?_eq_none_iff] at hh
        have : tm0 ∈ ots.filter (fun t => t.name = rt.name) :=
          List.mem_filter.mpr ⟨htm0mem, by simp [htm0name]⟩
        rw [hh] at this
        exact absurd this (List.not_mem_nil tm0)
      | some t0 => exact ⟨t0, hh⟩
    obtain ⟨m', hm', hframe, hnd⟩ := ih (dictPut m rt.id t0.id)
      (fun x hx => hex x (List.mem_cons_of_mem rt hx))
    refine ⟨m', ?_, ?_, ?_⟩
    · simp only [map_existing_terms, ht0]
      exact hm'
    · intro k hk
      simp only [List.map_cons, List.mem_cons, not_or] at hk
      rw [hframe k hk.2, dictGet_put_ne m k rt.id t0.id (Ne.symm hk.1)]
    · intro hnodup x hx
      simp only [List.map_cons, List.nodup_cons] at hnodup
      rcases List.mem_cons.mp hx with h1 | h2
      · subst h1
        refine ⟨t0, ht0, ?_⟩
        rw [hframe x.id hnodup.1]
        exact dictGet_put m x.id t0.id
      · exact hnd hnodup.2 x h2

theorem ontology_exists_iff (os : List Ont) (ts : List Trm) (nm : String)
    (rts : List RTrm) (o : Ont) :
    ontology_exists os ts nm rts = (true, some o) ↔
      ((os.filter (fun o' => o'.name = nm)).head? = some o ∧
        ∀ rt ∈ rts, (rt.name, rt.color) ∈ termPairs ts o.id) := by
  unfold ontology_exists find_first
  cases hh : (os.filter (fun o' => o'.name = nm)).head? with
  | none => simp
  | some c =>
    by_cases hd : (rts.filter (fun t => (t.name, t.color) ∉ termPairs ts c.id)).length = 0
    · simp only [if_pos hd]
      have hall : ∀ rt ∈ rts, (rt.name, rt.color) ∈ termPairs ts c.id := by
        intro rt hrt
        by_contra hno
        rw [List.length_eq_zero] at hd
        have hmem : rt ∈ rts.filter (fun t => (t.name, t.color) ∉ termPairs ts c.id) :=
          List.mem_filter.mpr ⟨hrt, by simpa using hno⟩
        rw [hd] at hmem
        exact absurd hmem (List.not_mem_nil rt)
      constructor
      · intro heq
        have hco : c = o := by
          have h2 := congrArg Prod.snd heq
          simpa using h2
        subst hco
        exact ⟨rfl, hall⟩
      · rintro ⟨h1, _⟩
        have hco : c = o := Option.some.inj h1
        subst hco
        rfl
    · simp only [if_neg hd]
      constructor
      · intro heq
        have h2 := congrArg Prod.fst heq
        simp at h2
      · rintro ⟨h1, h2⟩
        exfalso
        have hco : c = o := Option.some.inj h1
        subst hco
        apply hd
        rw [List.length_eq_zero, List.filter_eq_nil_iff]
        intro t ht
        simp [h2 t ht]

/-- C1 counterexample: the reuse decision is not "identical term set",
and not "some existing ontology".  First scenario: the single existing
ontology "P" carries the pairs ("a","red") and ("b","blue") while the
snapshot carries only ("a","red"); the pair sets differ, yet
`ontology_exists` answers reuse.  Second scenario: two existing
ontologies are both named "P"; only the second one has exactly the
snapshot's pairs, but the rename loop only ever compares the FIRST name
match, so it rejects "P" and settles on creating a fresh "P (1)"
ontology even though an existing ontology with the same name and an
identical term set is present. -/
theorem c1_ontology_reuse_counterexample :
    (ontology_exists [⟨1, "P"⟩]
        [⟨10, "a", "red", 1, none⟩, ⟨11, "b", "blue", 1, none⟩] "P"
        [⟨100, "a", "red", 5, none⟩] = (true, some ⟨1, "P"⟩) ∧
      ("b", "blue") ∈ termPairs [⟨10, "a", "red", 1, none⟩, ⟨11, "b", "blue", 1, none⟩] 1 ∧
      ("b", "blue") ∉ ([⟨100, "a", "red", 5, none⟩] : List RTrm).map
        (fun rt => (rt.name, rt.color))) ∧
    (ont_name_loop [⟨1, "P"⟩, ⟨2, "P"⟩]
        [⟨10, "b", "blue", 1, none⟩, ⟨11, "a", "red", 2, none⟩]
        [⟨100, "a", "red", 5, none⟩] "P" "P" 1 10 = some ("P (1)", none) ∧
      termPairs [⟨10, "b", "blue", 1, none⟩, ⟨11, "a", "red", 2, none⟩] 2 =
        ([⟨100, "a", "red", 5, none⟩] : List RTrm).map (fun rt => (rt.name, rt.color))) := by
  refine ⟨⟨?_, ?_, ?_⟩, ?_, ?_⟩
  · rfl
  · decide
  · decide
  · rfl
  · rfl

/-- C1 amended: the importer reuses an existing ontology for a
candidate name if and only if the FIRST existing ontology carrying that
name has a term-pair set that CONTAINS every snapshot
(term name, term color) pair (a superset is accepted; later ontologies
with the same name are never examined); when it reuses, every snapshot
term is mapped to the first existing term of that ontology with the
matching name, and no ontology, term or relation is created (the target
state is unchanged and the action list is empty). -/
theorem c1_ontology_reuse_amended (os : List Ont) (ts : List Trm) (nm : String)
    (rts : List RTrm) (o : Ont) (t : Target) (m : IdMap) (ro : RemoteOntology)
    (creator : Nat) (fuel : Nat) :
    (ontology_exists os ts nm rts = (true, some o) ↔
      ((os.filter (fun o' => o'.name = nm)).head? = some o ∧
        ∀ rt ∈ rts, (rt.name, rt.color) ∈ termPairs ts o.id)) ∧
    (1 ≤ fuel → dictGet m ro.user = some creator →
      (rts.map RTrm.id).Nodup → ro.id ∉ rts.map RTrm.id →
      ontology_exists t.ontologies t.terms (pyStrip ro.name) rts = (true, some o) →
      ∃ m2, import_ontology t m ro rts fuel = Except.ok ⟨t, m2, []⟩ ∧
        dictGet m2 ro.id = some o.id ∧
        ∀ rt ∈ rts, ∃ tm,
          find_first ((t.terms.filter (fun tm' => tm'.ontology = o.id)).filter
            (fun tm' => tm'.name = rt.name)) = some tm ∧
          dictGet m2 rt.id = some tm.id) := by
  constructor
  · exact ontology_exists_iff os ts nm rts o
  · intro hfuel huser hnd hro hreuse
    have hex : ∀ rt ∈ rts, ∃ tm ∈ t.terms.filter (fun tm' => tm'.ontology = o.id),
        tm.name = rt.name := by
      intro rt hrt
      have hpair := ((ontology_exists_iff t.ontologies t.terms (pyStrip ro.name) rts o).mp
        hreuse).2 rt hrt
      unfold termPairs at hpair
      obtain ⟨tm, htm, hpq⟩ := List.mem_map.mp hpair
      exact ⟨tm, htm, by
        have := congrArg Prod.fst hpq
        simpa using this⟩
    obtain ⟨m2, hm2, hframe, hnodup⟩ :=
      map_existing_terms_ok (t.terms.filter (fun tm' => tm'.ontology = o.id)) rts
        (dictPut m ro.id o.id) hex
    refine ⟨m2, ?_, ?_, ?_⟩
    · cases fuel with
      | zero => omega
      | succ f =>
        unfold import_ontology
        simp only [ont_name_loop, hreuse, huser, hm2]
    · rw [hframe ro.id hro, dictGet_put]
    · exact hnodup hnd

/-- C1 amended witness: a concrete target whose first "O" ontology has
a strict superset of the snapshot pairs is reused, the snapshot
ontology and term are mapped to the existing entities, and nothing is
created. -/
theorem c1_ontology_reuse_amended_witness :
    ∃ m2, import_ontology
        ⟨[⟨1, "O"⟩], [⟨10, "a", "red", 1, none⟩, ⟨11, "b", "blue", 1, none⟩], 50⟩
        [(7, 70)] ⟨5, "O", 7⟩ [⟨100, "a", "red", 5, none⟩] 3 =
        Except.ok ⟨⟨[⟨1, "O"⟩], [⟨10, "a", "red", 1, none⟩, ⟨11, "b", "blue", 1, none⟩], 50⟩,
          m2, []⟩ ∧
      dictGet m2 5 = some 1 ∧
      ∀ rt ∈ ([⟨100, "a", "red", 5, none⟩] : List RTrm), ∃ tm,
        find_first ((([⟨10, "a", "red", 1, none⟩, ⟨11, "b", "blue", 1, none⟩] :
            List Trm).filter (fun tm' => tm'.ontology = 1)).filter
          (fun tm' => tm'.name = rt.name)) = some tm ∧
        dictGet m2 rt.id = some tm.id := by
  have h := (c1_ontology_reuse_amended [] [] "" [⟨100, "a", "red", 5, none⟩] ⟨1, "O"⟩
    ⟨[⟨1, "O"⟩], [⟨10, "a", "red", 1, none⟩, ⟨11, "b", "blue", 1, none⟩], 50⟩
    [(7, 70)] ⟨5, "O", 7⟩ 70 3).2 (by omega) rfl (by decide) (by decide) (by rfl)
  obtain ⟨m2, h1, h2, h3⟩ := h
  exact ⟨m2, h1, h2, h3⟩

theorem find_first_mem {α : Type} (l : List α) (x : α) (h : find_first l = some x) :
    x ∈ l := by
  cases l with
  | nil => cases h
  | cons a as =>
    have hx : a = x := by
      simpa [find_first] using h
    rw [← hx]
    exact List.mem_cons_self a as

/-- Shared helper: full description of one run of the create branch of
`import_ontology`, used both for the ordering claim and for the
idempotence claim. -/
theorem import_ontology_create_run (t : Target) (m : IdMap) (ro : RemoteOntology)
    (rts : List RTrm) (creator : Nat) (finalName : String) (fuel : Nat)
    (hloop : ont_name_loop t.ontologies t.terms rts (pyStrip ro.name) (pyStrip ro.name) 1 fuel =
      some (finalName, none))
    (huser : dictGet m ro.user = some creator)
    (honto : ∀ rt ∈ rts, rt.ontology = ro.id)
    (hro : ro.id ∉ rts.map RTrm.id)
    (hpar : ∀ rt ∈ rts, ∀ p, rt.parent = some p → p ≠ 0 → p ∈ rts.map RTrm.id) :
    ∃ relActs,
      import_ontology t m ro rts fuel = Except.ok
        ⟨⟨t.ontologies ++ [⟨t.nextId, finalName⟩],
            t.terms ++ mk_terms t.nextId (t.nextId + 1) rts, t.nextId + 1 + rts.length⟩,
          put_ids (dictPut m ro.id t.nextId) (t.nextId + 1) rts,
          OntoAction.createOntology t.nextId finalName creator ::
            (mk_term_actions t.nextId (t.nextId + 1) rts ++ relActs)⟩ ∧
      (∀ a ∈ relActs, isRelAction a = true) ∧
      relActs.length = (rts.filter truthyParent).length ∧
      (∀ i (h1 : i < rts.length)
        (h2 : i < (mk_term_actions t.nextId (t.nextId + 1) rts).length),
        (mk_term_actions t.nextId (t.nextId + 1) rts).get ⟨i, h2⟩ =
          OntoAction.createTerm (t.nextId + 1 + i) (rts.get ⟨i, h1⟩).name
            (rts.get ⟨i, h1⟩).color t.nextId) := by
  have hm1 : dictGet (dictPut m ro.id t.nextId) ro.id = some t.nextId :=
    dictGet_put m ro.id t.nextId
  have hct := create_terms_eq ro.id t.nextId rts (dictPut m ro.id t.nextId)
    (t.nextId + 1) honto hro hm1
  have hparOK : ∀ rt ∈ rts, ∀ p, rt.parent = some p → p ≠ 0 →
      (dictGet (put_ids (dictPut m ro.id t.nextId) (t.nextId + 1) rts) p).isSome :=
    fun rt hrt p hp hp0 =>
      dictGet_put_ids_mem_isSome rts (dictPut m ro.id t.nextId) (t.nextId + 1) p
        (hpar rt hrt p hp hp0)
  have hidOK : ∀ rt ∈ rts,
      (dictGet (put_ids (dictPut m ro.id t.nextId) (t.nextId + 1) rts) rt.id).isSome :=
    fun rt hrt =>
      dictGet_put_ids_mem_isSome rts (dictPut m ro.id t.nextId) (t.nextId + 1) rt.id
        (List.mem_map_of_mem RTrm.id hrt)
  obtain ⟨relActs, hrels, hrelAll, hrelLen⟩ :=
    create_relations_ok rts (put_ids (dictPut m ro.id t.nextId) (t.nextId + 1) rts)
      hparOK hidOK
  refine ⟨relActs, ?_, hrelAll, hrelLen, ?_⟩
  · unfold import_ontology
    simp only [hloop, huser, hct, hrels]
  · intro i h1 h2
    exact mk_term_actions_get t.nextId rts (t.nextId + 1) i h1 h2

/-- C9: when the create branch of `import_ontology` runs, the persisted
side effects are, in program order, the ontology creation, then one term
creation per snapshot term in the snapshot's original order (the `i`-th
created term carries the `i`-th snapshot term's name and color), then
only `RelationTerm` saves — so no relation is persisted before every
term has been created and recorded in the mapping (the relation loop
reads the mapping `put_ids ...` produced by the completed term loop),
and a `(parent, child)` pair with a null parent contributes no relation:
the relation count equals the number of snapshot terms with a truthy
parent. -/
theorem c9_term_then_relation_order (t : Target) (m : IdMap) (ro : RemoteOntology)
    (rts : List RTrm) (creator : Nat) (finalName : String) (fuel : Nat)
    (hloop : ont_name_loop t.ontologies t.terms rts (pyStrip ro.name) (pyStrip ro.name) 1 fuel =
      some (finalName, none))
    (huser : dictGet m ro.user = some creator)
    (honto : ∀ rt ∈ rts, rt.ontology = ro.id)
    (hro : ro.id ∉ rts.map RTrm.id)
    (hpar : ∀ rt ∈ rts, ∀ p, rt.parent = some p → p ≠ 0 → p ∈ rts.map RTrm.id) :
    ∃ relActs,
      import_ontology t m ro rts fuel = Except.ok
        ⟨⟨t.ontologies ++ [⟨t.nextId, finalName⟩],
            t.terms ++ mk_terms t.nextId (t.nextId + 1) rts, t.nextId + 1 + rts.length⟩,
          put_ids (dictPut m ro.id t.nextId) (t.nextId + 1) rts,
          OntoAction.createOntology t.nextId finalName creator ::
            (mk_term_actions t.nextId (t.nextId + 1) rts ++ relActs)⟩ ∧
      (∀ a ∈ relActs, isRelAction a = true) ∧
      relActs.length = (rts.filter truthyParent).length ∧
      (∀ i (h1 : i < rts.length)
        (h2 : i < (mk_term_actions t.nextId (t.nextId + 1) rts).length),
        (mk_term_actions t.nextId (t.nextId + 1) rts).get ⟨i, h2⟩ =
          OntoAction.createTerm (t.nextId + 1 + i) (rts.get ⟨i, h1⟩).name
            (rts.get ⟨i, h1⟩).color t.nextId) :=
  import_ontology_create_run t m ro rts creator finalName fuel hloop huser honto hro hpar

/-- C9 witness: a two-term snapshot with one parent link, imported into
an empty target. -/
theorem c9_term_then_relation_order_witness :
    ∃ relActs,
      import_ontology ⟨[], [], 1⟩ [(7, 70)] ⟨5, "Onto", 7⟩
          [⟨100, "a", "red", 5, none⟩, ⟨101, "b", "blue", 5, some 100⟩] 1 =
        Except.ok
          ⟨⟨[⟨1, "Onto"⟩], [⟨2, "a", "red", 1, none⟩, ⟨3, "b", "blue", 1, none⟩], 4⟩,
            [(101, 3), (100, 2), (5, 1), (7, 70)],
            OntoAction.createOntology 1 "Onto" 70 ::
              ([OntoAction.createTerm 2 "a" "red" 1, OntoAction.createTerm 3 "b" "blue" 1] ++
                relActs)⟩ ∧
      (∀ a ∈ relActs, isRelAction a = true) ∧
      relActs.length = (([⟨100, "a", "red", 5, none⟩, ⟨101, "b", "blue", 5, some 100⟩] :
        List RTrm).filter truthyParent).length := by
  obtain ⟨relActs, h1, h2, h3, _⟩ := c9_term_then_relation_order ⟨[], [], 1⟩ [(7, 70)]
    ⟨5, "Onto", 7⟩ [⟨100, "a", "red", 5, none⟩, ⟨101, "b", "blue", 5, some 100⟩] 70 "Onto" 1
    rfl rfl (by decide) (by decide)
    (by
      intro rt hrt p hp hp0
      rcases List.mem_cons.mp hrt with h1 | h2
      · subst h1
        exact Option.noConfusion hp
      · rcases List.mem_cons.mp h2 with h3 | h4
        · subst h3
          injection hp with hq
          subst hq
          decide
        · exact absurd h4 (List.not_mem_nil rt))
  exact ⟨relActs, h1, h2, h3⟩

/-- C8: importing the identical ontology snapshot twice against a
target whose ontologies do not carry the snapshot's (stripped) name is
idempotent.  The first import creates exactly one ontology and the
snapshot's terms once (the resulting target appends exactly them, and
the first persisted action is the single ontology creation); the second
run against the resulting state changes nothing (same target back,
empty action list) and maps the snapshot ontology id and every snapshot
term id to the entities the first import created. -/
theorem c8_ontology_import_idempotent (t : Target) (m : IdMap) (ro : RemoteOntology)
    (rts : List RTrm) (creator : Nat) (fuel1 fuel2 : Nat)
    (hf1 : 1 ≤ fuel1) (hf2 : 1 ≤ fuel2)
    (huser : dictGet m ro.user = some creator)
    (hname : ∀ o ∈ t.ontologies, o.name ≠ pyStrip ro.name)
    (hwf : ∀ tm ∈ t.terms, tm.ontology ≠ t.nextId)
    (honto : ∀ rt ∈ rts, rt.ontology = ro.id)
    (hro : ro.id ∉ rts.map RTrm.id)
    (hnd : (rts.map RTrm.id).Nodup)
    (hpar : ∀ rt ∈ rts, ∀ p, rt.parent = some p → p ≠ 0 → p ∈ rts.map RTrm.id) :
    ∃ m2 acts1 m3,
      import_ontology t m ro rts fuel1 = Except.ok
        ⟨⟨t.ontologies ++ [⟨t.nextId, pyStrip ro.name⟩],
            t.terms ++ mk_terms t.nextId (t.nextId + 1) rts, t.nextId + 1 + rts.length⟩,
          m2, acts1⟩ ∧
      acts1.head? = some (OntoAction.createOntology t.nextId (pyStrip ro.name) creator) ∧
      import_ontology
          ⟨t.ontologies ++ [⟨t.nextId, pyStrip ro.name⟩],
            t.terms ++ mk_terms t.nextId (t.nextId + 1) rts, t.nextId + 1 + rts.length⟩
          m2 ro rts fuel2 =
        Except.ok
          ⟨⟨t.ontologies ++ [⟨t.nextId, pyStrip ro.name⟩],
              t.terms ++ mk_terms t.nextId (t.nextId + 1) rts, t.nextId + 1 + rts.length⟩,
            m3, []⟩ ∧
      dictGet m3 ro.id = some t.nextId ∧
      (∀ rt ∈ rts, ∃ tm ∈ mk_terms t.nextId (t.nextId + 1) rts,
        tm.name = rt.name ∧ dictGet m3 rt.id = some tm.id) := by
  have hfilter : t.ontologies.filter (fun o' => o'.name = pyStrip ro.name) = [] :=
    List.filter_eq_nil_iff.mpr (fun o ho => by simpa using hname o ho)
  have hoe1 : ontology_exists t.ontologies t.terms (pyStrip ro.name) rts = (true, none) := by
    unfold ontology_exists find_first
    rw [hfilter]
    rfl
  have hloop1 : ont_name_loop t.ontologies t.terms rts (pyStrip ro.name) (pyStrip ro.name) 1
      fuel1 = some (pyStrip ro.name, none) := by
    cases fuel1 with
    | zero => omega
    | succ f => simp only [ont_name_loop, hoe1]
  -- first run: create path
  have hrun1 := import_ontology_create_run t m ro rts creator (pyStrip ro.name) fuel1
    hloop1 huser honto hro hpar
  obtain ⟨relActs, hrun1eq, _, _, _⟩ := hrun1
  -- names for the state after the first run
  have hwfnil : t.terms.filter (fun tm => tm.ontology = t.nextId) = [] :=
    List.filter_eq_nil_iff.mpr (fun tm h => by simpa using hwf tm h)
  have hnewself : (mk_terms t.nextId (t.nextId + 1) rts).filter
      (fun tm => tm.ontology = t.nextId) = mk_terms t.nextId (t.nextId + 1) rts :=
    List.filter_eq_self.mpr
      (fun tm h => by simpa using mk_terms_ontology t.nextId rts (t.nextId + 1) tm h)
  have hot : (t.terms ++ mk_terms t.nextId (t.nextId + 1) rts).filter
      (fun tm => tm.ontology = t.nextId) = mk_terms t.nextId (t.nextId + 1) rts := by
    rw [List.filter_append, hwfnil, hnewself, List.nil_append]
  have hhead : ((t.ontologies ++ [(⟨t.nextId, pyStrip ro.name⟩ : Ont)]).filter
      (fun o' => o'.name = pyStrip ro.name)).head? = some ⟨t.nextId, pyStrip ro.name⟩ := by
    rw [List.filter_append, hfilter, List.nil_append]
    simp
  have hpairs : ∀ rt ∈ rts, (rt.name, rt.color) ∈
      termPairs (t.terms ++ mk_terms t.nextId (t.nextId + 1) rts)
        (⟨t.nextId, pyStrip ro.name⟩ : Ont).id := by
    intro rt hrt
    unfold termPairs
    rw [hot, mk_terms_pairs]
    exact List.mem_map_of_mem (fun x => (x.name, x.color)) hrt
  have hoe2 : ontology_exists (t.ontologies ++ [⟨t.nextId, pyStrip ro.name⟩])
      (t.terms ++ mk_terms t.nextId (t.nextId + 1) rts) (pyStrip ro.name) rts =
      (true, some ⟨t.nextId, pyStrip ro.name⟩) :=
    (ontology_exists_iff (t.ontologies ++ [⟨t.nextId, pyStrip ro.name⟩])
      (t.terms ++ mk_terms t.nextId (t.nextId + 1) rts) (pyStrip ro.name) rts
      ⟨t.nextId, pyStrip ro.name⟩).mpr ⟨hhead, hpairs⟩
  have hloop2 : ont_name_loop (t.ontologies ++ [⟨t.nextId, pyStrip ro.name⟩])
      (t.terms ++ mk_terms t.nextId (t.nextId + 1) rts) rts (pyStrip ro.name)
      (pyStrip ro.name) 1 fuel2 = some (pyStrip ro.name, some ⟨t.nextId, pyStrip ro.name⟩) := by
    cases fuel2 with
    | zero => omega
    | succ f => simp only [ont_name_loop, hoe2]
  -- the mapping after the first run still resolves the creator user
  have huser2 : (dictGet (put_ids (dictPut m ro.id t.nextId) (t.nextId + 1) rts)
      ro.user).isSome := by
    apply dictGet_put_ids_isSome
    apply dictGet_put_isSome
    rw [huser]
    rfl
  obtain ⟨c2, hc2⟩ := Option.isSome_iff_exists.mp huser2
  -- the reuse branch's term mapping succeeds by name
  have hex2 : ∀ rt ∈ rts, ∃ tm ∈ mk_terms t.nextId (t.nextId + 1) rts,
      tm.name = rt.name := fun rt hrt => mk_terms_mem_name t.nextId rts (t.nextId + 1) rt hrt
  obtain ⟨m3, hm3, hframe3, hnodup3⟩ :=
    map_existing_terms_ok (mk_terms t.nextId (t.nextId + 1) rts) rts
      (dictPut (put_ids (dictPut m ro.id t.nextId) (t.nextId + 1) rts) ro.id t.nextId) hex2
  refine ⟨put_ids (dictPut m ro.id t.nextId) (t.nextId + 1) rts,
    OntoAction.createOntology t.nextId (pyStrip ro.name) creator ::
      (mk_term_actions t.nextId (t.nextId + 1) rts ++ relActs), m3,
    hrun1eq, rfl, ?_, ?_, ?_⟩
  · unfold import_ontology
    simp only [hloop2, hc2, hot, hm3]
  · rw [hframe3 ro.id hro, dictGet_put]
  · intro rt hrt
    obtain ⟨tm, htm, hget⟩ := hnodup3 hnd rt hrt
    have htm_mem : tm ∈ (mk_terms t.nextId (t.nextId + 1) rts).filter
        (fun x => x.name = rt.name) := by
      apply find_first_mem
      exact htm
    have hmem : tm ∈ mk_terms t.nextId (t.nextId + 1) rts :=
      List.mem_of_mem_filter htm_mem
    have hname2 : tm.name = rt.name := by
      have := List.of_mem_filter htm_mem
      simpa using this
    exact ⟨tm, hmem, hname2, hget⟩

/-- C8 witness: a two-term snapshot imported twice into an empty
target — the first run creates ontology 1 and terms 2 and 3, the second
run creates nothing and maps ids 5, 100, 101 onto them. -/
theorem c8_ontology_import_idempotent_witness :
    ∃ m2 acts1 m3,
      import_ontology ⟨[], [], 1⟩ [(7, 70)] ⟨5, "Onto", 7⟩
          [⟨100, "a", "red", 5, none⟩, ⟨101, "b", "blue", 5, some 100⟩] 1 =
        Except.ok
          ⟨⟨[⟨1, "Onto"⟩], [⟨2, "a", "red", 1, none⟩, ⟨3, "b", "blue", 1, none⟩], 4⟩,
            m2, acts1⟩ ∧
      acts1.head? = some (OntoAction.createOntology 1 "Onto" 70) ∧
      import_ontology ⟨[⟨1, "Onto"⟩], [⟨2, "a", "red", 1, none⟩, ⟨3, "b", "blue", 1, none⟩], 4⟩
          m2 ⟨5, "Onto", 7⟩ [⟨100, "a", "red", 5, none⟩, ⟨101, "b", "blue", 5, some 100⟩] 1 =
        Except.ok
          ⟨⟨[⟨1, "Onto"⟩], [⟨2, "a", "red", 1, none⟩, ⟨3, "b", "blue", 1, none⟩], 4⟩,
            m3, []⟩ ∧
      dictGet m3 5 = some 1 ∧
      (∀ rt ∈ ([⟨100, "a", "red", 5, none⟩, ⟨101, "b", "blue", 5, some 100⟩] : List RTrm),
        ∃ tm ∈ ([⟨2, "a", "red", 1, none⟩, ⟨3, "b", "blue", 1, none⟩] : List Trm),
          tm.name = rt.name ∧ dictGet m3 rt.id = some tm.id) := by
  exact c8_ontology_import_idempotent ⟨[], [], 1⟩ [(7, 70)] ⟨5, "Onto", 7⟩
    [⟨100, "a", "red", 5, none⟩, ⟨101, "b", "blue", 5, some 100⟩] 70 1 1
    (by omega) (by omega) rfl
    (fun o ho => absurd ho (List.not_mem_nil o))
    (fun tm htm => absurd htm (List.not_mem_nil tm))
    (by decide) (by decide) (by decide)
    (by
      intro rt hrt p hp hp0
      rcases List.mem_cons.mp hrt with h1 | h2
      · subst h1
        exact Option.noConfusion hp
      · rcases List.mem_cons.mp h2 with h3 | h4
        · subst h3
          injection hp with hq
          subst hq
          decide
        · exact absurd h4 (List.not_mem_nil rt))

end CytomineMigrator
